import Mathlib

/-!
Verification of the table-resolution and result-aggregation core of
`watch_fumotoppara.py`.

The Python source drives a browser; here the rendered table is modelled as a
passive snapshot: an ordered list of header-cell texts, and ordered rows, each
row being the ordered list of its `th`/`td` cells.  Every pure helper of the
source (`normalize_text`, `_date_candidates`, `pick_column_index`, the body of
`fetch_cell_symbol` after the DOM queries, and the message generation in
`main`) is translated directly; machine-level concerns (HTTP, Playwright
selectors, timeouts) are outside the modelled core, exactly as the program's
own structure separates them.
-/

/-- Tag of a table cell element: header cell (`th`) or data cell (`td`). -/
inductive CellTag where
  | th : CellTag
  | td : CellTag
deriving BEq, DecidableEq, Repr

/-- One cell of a rendered table row: its element tag and its inner text. -/
structure Cell where
  tag : CellTag
  text : String
deriving BEq, DecidableEq, Repr

/-- One rendered table row: its cells in document order.
`query_selector_all("td")` on the row yields the `td` cells in order, and
`query_selector_all("th,td")` yields all cells in order. -/
structure Row where
  cells : List Cell
deriving BEq, DecidableEq, Repr

/-- The whitespace class used by Python's `\s` (ASCII members) and `str.strip`. -/
def isPySpace (c : Char) : Bool :=
  c == ' ' || c == '\t' || c == '\n' || c == '\r' || c == '\x0b' || c == '\x0c'

/-- Replace each maximal whitespace run by a single space:
`re.sub(r"\s+", " ", s)`.  The boolean records whether the previous character
was part of a whitespace run already emitted. -/
def collapseWS : List Char → Bool → List Char
  | [], _ => []
  | c :: rest, inRun =>
    if isPySpace c then
      if inRun then collapseWS rest true else ' ' :: collapseWS rest true
    else c :: collapseWS rest false

/-- Python `str.strip()`: drop whitespace from both ends. -/
def pyStrip (l : List Char) : List Char :=
  ((l.dropWhile isPySpace).reverse.dropWhile isPySpace).reverse

/-- Source `normalize_text`: `re.sub(r"\s+", " ", s).strip()`. -/
def normalize_text (s : String) : String :=
  String.mk (pyStrip (collapseWS s.data false))

/-- Split a character list at its first `'/'`: Python `label.split("/", 1)`
restricted to the guarded case where a slash is present. -/
def splitSlash : List Char → List Char × List Char
  | [] => ([], [])
  | c :: t =>
    if c == '/' then ([], t)
    else
      let p := splitSlash t
      (c :: p.1, p.2)

/-- Python `day.zfill(2)` for the lengths that reach it (`len(day) ≠ 2`);
`zfill` keeps a leading sign character in front of the padding zeros. -/
def zfill2 : List Char → List Char
  | [] => ['0', '0']
  | [c] => if c == '+' || c == '-' then [c, '0'] else ['0', c]
  | l => l

/-- Source `_date_candidates`: tolerate `"11/1"` vs `"11/01"` header spellings.
The Python function returns a set; candidate order never affects matching, so
a two-element list stands for it. -/
def _date_candidates (label : String) : List String :=
  let l := pyStrip label.data
  if l.contains '/' then
    let mon := (splitSlash l).1
    let day := (splitSlash l).2
    let day_nz := if (day.dropWhile (· == '0')).isEmpty then ['0'] else day.dropWhile (· == '0')
    let day_z2 := if day.length == 2 then day else zfill2 day
    [String.mk (mon ++ '/' :: day_nz), String.mk (mon ++ '/' :: day_z2)]
  else
    [String.mk l]

/-- Holds when the first list is a leading segment of the second. -/
def prefB : List Char → List Char → Bool
  | [], _ => true
  | _ :: _, [] => false
  | a :: as, b :: bs => a == b && prefB as bs

/-- Python's `c in hx` substring test on character lists. -/
def substrB : List Char → List Char → Bool
  | n, [] => prefB n []
  | n, c :: t => prefB n (c :: t) || substrB n t

/-- Python `s.startswith(pre)`. -/
def pyStartsWith (s pre : String) : Bool :=
  prefB pre.data s.data

/-- The inner loop of `pick_column_index`: a header matches when some date
candidate occurs inside its normalized text. -/
def headerMatchesB (cands : List String) (h : String) : Bool :=
  cands.any (fun c => substrB c.data (normalize_text h).data)

/-- The `enumerate` loop of `pick_column_index`, with the running index. -/
def pickColAux (cands : List String) : List String → Nat → Option Nat
  | [], _ => none
  | h :: rest, i =>
    if headerMatchesB cands h then some i else pickColAux cands rest (i + 1)

/-- Source `pick_column_index`: index of the first header whose normalized
text contains some candidate of the date label; `None` when no header does. -/
def pick_column_index (headers : List String) (date_label : String) : Option Nat :=
  pickColAux (_date_candidates date_label) headers 0

/-- The row's first `th` cell if any, otherwise its first `td` cell:
`r.query_selector("th") or r.query_selector("td")`. -/
def firstCell (r : Row) : Option Cell :=
  match r.cells.find? (fun c => c.tag == CellTag.th) with
  | some c => some c
  | none => r.cells.find? (fun c => c.tag == CellTag.td)

/-- The row-selection test of `fetch_cell_symbol`: the row has a leading cell
and the row label occurs inside that cell's normalized text; rows with no
leading cell are skipped (`continue`). -/
def rowMatchesB (row_label : String) (r : Row) : Bool :=
  match firstCell r with
  | none => false
  | some c => substrB row_label.data (normalize_text c.text).data

/-- The row-scanning loop of `fetch_cell_symbol` (source lines 90-99). -/
def findRow (rows : List Row) (row_label : String) : Option Row :=
  rows.find? (rowMatchesB row_label)

/-- The error taxonomy of `fetch_cell_symbol`'s `RuntimeError`s, tagged. -/
inductive ExtractErr where
  | columnNotFound : String → ExtractErr
  | rowNotFound : String → ExtractErr
  | indexMismatch : Int → Nat → ExtractErr
  | cellNotFound : ExtractErr
deriving BEq, DecidableEq, Repr

/-- The row's `td` cells: `target_row.query_selector_all("td")`. -/
def dataCellsOf (r : Row) : List Cell :=
  r.cells.filter (fun c => c.tag == CellTag.td)

/-- Cell extraction of `fetch_cell_symbol` (source lines 103-117).  With `td`
cells present, the offset `j` drops by one exactly when the header row is one
longer than the data-cell list; out-of-bounds `j` raises the index-mismatch
error.  With no `td` cells, the mixed `th,td` array is referenced directly at
the column index. -/
def extract_cell (headers : List String) (r : Row) (col_idx : Nat) : Except ExtractErr String :=
  let data_cells := dataCellsOf r
  if data_cells.isEmpty then
    let cells := r.cells
    if h : col_idx < cells.length then
      Except.ok (normalize_text (cells.get ⟨col_idx, h⟩).text)
    else
      Except.error ExtractErr.cellNotFound
  else
    let j : Int := if data_cells.length + 1 = headers.length then (col_idx : Int) - 1 else (col_idx : Int)
    if h : 0 ≤ j ∧ j < (data_cells.length : Int) then
      Except.ok (normalize_text (data_cells.get ⟨j.toNat, by omega⟩).text)
    else
      Except.error (ExtractErr.indexMismatch j data_cells.length)

/-- Source `fetch_cell_symbol` on a table snapshot: header texts are
normalized on acquisition (line 84), the column is resolved, then the row,
then the cell is extracted; each `raise` becomes the tagged error. -/
def fetch_cell_symbol (headerTexts : List String) (rows : List Row)
    (row_label date_label : String) : Except ExtractErr String :=
  let headers := headerTexts.map normalize_text
  match pick_column_index headers date_label with
  | none => Except.error (ExtractErr.columnNotFound date_label)
  | some col_idx =>
    match findRow rows row_label with
    | none => Except.error (ExtractErr.rowNotFound row_label)
    | some target_row => extract_cell headers target_row col_idx

/-- The message text of each `RuntimeError` in `fetch_cell_symbol`. -/
def errMsg : ExtractErr → String
  | ExtractErr.columnNotFound d => "ヘッダーから日付 '" ++ d ++ "' の列が見つかりませんでした。"
  | ExtractErr.rowNotFound r => "行 '" ++ r ++ "' が見つかりませんでした。"
  | ExtractErr.indexMismatch j len =>
      "列インデックス計算に失敗しました (j=" ++ toString j ++ ", len=" ++ toString len ++ ")."
  | ExtractErr.cellNotFound => "対象セルを取得できませんでした。"

/-- One iteration of `main`'s query loop: the symbol on success, the
`f"ERROR: {e}"` string when the exception is caught (source lines 131-135). -/
def runCell (headerTexts : List String) (rows : List Row) (row d : String) : String :=
  match fetch_cell_symbol headerTexts rows row d with
  | Except.ok s => s
  | Except.error e => "ERROR: " ++ errMsg e

/-- Source `main`'s query loop (source lines 128-135): rows outer, dates inner, one
entry per `(row, date)` key in insertion order. -/
def runQueries (headerTexts : List String) (rows : List Row)
    (row_labels date_labels : List String) : List ((String × String) × String) :=
  row_labels.flatMap (fun row => date_labels.map (fun d => ((row, d), runCell headerTexts rows row d)))

/-- Whether an extraction outcome is a symbol (`Symbol`) rather than a
recorded failure. -/
def isOkE : Except ExtractErr String → Bool
  | Except.ok _ => true
  | Except.error _ => false

/-- The availability markers hardcoded in `main`: `("〇", "○", "△")`. -/
def AVAILABLE_SYMBOLS : List String := ["〇", "○", "△"]

/-- The prefix `main` tests with `symbol.startswith("ERROR")`. -/
def ERROR_PREFIX : String := "ERROR"

/-- The report line for one pair: `f"{d} の {row}: {symbol}"`. -/
def pairLine (row d symbol : String) : String :=
  d ++ " の " ++ row ++ ": " ++ symbol

/-- The classification loop of `main` (source lines 139-144): availability
markers go to `alerts`, strings starting with `"ERROR"` go to `errors`, and
everything else (unavailable symbols) is dropped. -/
def classifyStep (acc : List String × List String)
    (kv : (String × String) × String) : List String × List String :=
  if AVAILABLE_SYMBOLS.contains kv.2 then
    (acc.1 ++ [pairLine kv.1.1 kv.1.2 kv.2], acc.2)
  else if pyStartsWith kv.2 ERROR_PREFIX then
    (acc.1, acc.2 ++ [pairLine kv.1.1 kv.1.2 kv.2])
  else acc

/-- The accumulated `(alerts, errors)` of `main`'s classification loop. -/
def classifyResults (results : List ((String × String) × String)) : List String × List String :=
  results.foldl classifyStep ([], [])

/-- The monitored page address (`PAGE_URL`). -/
def PAGE_URL : String := "https://reserve.fumotoppara.net/reserved/reserved-calendar-list"

/-- The rendered outcome of a run: either the multi-section notification
text, or the no-availability path, which broadcasts the short `【空き無し】`
message only when `ALWAYS_NOTIFY` is set (`none` = log line only). -/
inductive Report where
  | multiSection : String → Report
  | noAvailability : Option String → Report
deriving BEq, DecidableEq, Repr

/-- Whether a rendered report took the multi-section form. -/
def Report.isMulti : Report → Bool
  | Report.multiSection _ => true
  | Report.noAvailability _ => false

/-- Spec-side substring containment: `needle` occurs contiguously in `hay`. -/
def ContainsSub (hay needle : List Char) : Prop :=
  ∃ l t, hay = l ++ needle ++ t

/-- Spec-side day normalization: leading zeros removed, `"0"` when nothing
remains; two day spellings denote the same day when they normalize alike. -/
def dayNorm (d : List Char) : List Char :=
  if (d.dropWhile (· == '0')).isEmpty then ['0'] else d.dropWhile (· == '0')

/-- The message generation of `main` (source lines 139-170): a multi-section
report when some pair is available or errored, otherwise the no-availability
path governed by the `always_notify` flag. -/
def renderReport (results : List ((String × String) × String))
    (date_labels : List String) (always_notify : Bool) : Report :=
  let alerts := (classifyResults results).1
  let errors := (classifyResults results).2
  if alerts ≠ [] ∨ errors ≠ [] then
    let lines :=
      ["ふもとっぱら空き検知(Messaging API版)", "対象日: " ++ String.intercalate (", ") date_labels]
      ++ (if alerts ≠ [] then ("【空きあり】" :: alerts.map (fun a => "・" ++ a)) else [])
      ++ (if errors ≠ [] then ("【取得エラー】(参考)" :: errors.map (fun e => "・" ++ e)) else [])
      ++ ["確認: " ++ PAGE_URL]
    Report.multiSection (String.intercalate ("\n") lines)
  else
    Report.noAvailability
      (if always_notify then
        some (String.intercalate ("\n")
          ["ふもとっぱら空き検知(Messaging API版)", "対象日: " ++ String.intercalate (", ") date_labels,
           "【空き無し】", "確認: " ++ PAGE_URL])
      else none)

/-! ### Concrete table snapshots used by the scenario theorems -/

/-- Scenario A headers: a label column followed by two date columns. -/
def scnA_headers : List String := ["区分", "11/1", "11/2"]

/-- Scenario A row: `th` label cell, two `td` data cells. -/
def scnA_row : Row := ⟨[⟨CellTag.th, "キャンプ宿泊"⟩, ⟨CellTag.td, "〇"⟩, ⟨CellTag.td, "×"⟩]⟩

/-- The overnight-camp row label. -/
def rlA : String := "キャンプ宿泊"

/-- The first queried date label. -/
def dA1 : String := "11/1"

/-- A date label matching no header of the scenario tables. -/
def dA9 : String := "11/9"

/-- The availability symbol of Scenario A's queried cell. -/
def symMaru : String := "〇"

/-- An unavailable symbol. -/
def symBatsu : String := "×"

/-- The limited-availability symbol of Scenario C. -/
def symTri : String := "△"

/-- Scenario C headers: date columns only, no label column. -/
def scnC_headers : List String := ["11/1", "11/2"]

/-- Scenario C row: label and data cells not structurally separated (all
`th`, so the `td` data-cell list is empty and extraction takes the fallback).
The combined `th,td` array is `["キャンプ日帰り", "△", "×"]`. -/
def scnC_row : Row := ⟨[⟨CellTag.th, "キャンプ日帰り"⟩, ⟨CellTag.th, "△"⟩, ⟨CellTag.th, "×"⟩]⟩

/-- The day-trip row label. -/
def rlC : String := "キャンプ日帰り"

/-- A header list violating the structural invariant against `scnA_row`:
four headers but only two data cells (4 > 2 + 1). -/
def scnV_headers : List String := ["区分", "11/1", "11/2", "11/3"]

/-- A table whose queried cell text itself starts with `"ERROR"`. -/
def scnE_headers : List String := ["区分", "11/1"]

/-- The row of that table: a genuine `td` data cell with text `"ERRORX"`. -/
def scnE_row : Row := ⟨[⟨CellTag.th, "行E"⟩, ⟨CellTag.td, "ERRORX"⟩]⟩

/-- The row label of the `"ERRORX"` table. -/
def rlE : String := "行E"

/-- The successfully extracted symbol text that begins with `"ERROR"`. -/
def symE : String := "ERRORX"

/-- Scenario D results: every pair resolved to an unavailable symbol. -/
def scnD_results : List ((String × String) × String) :=
  [(("A", "11/1"), "×"), (("B", "11/1"), "×")]

/-- A slash-free date label carrying surrounding whitespace. -/
def spaceLbl : String := " A "

/-- The label `spaceLbl` with its whitespace stripped. -/
def stripA : String := "A"

/-- Month characters of the label `"11/1"`. -/
def m11 : List Char := ['1', '1']

/-- Day characters of the label `"11/1"`. -/
def day1 : List Char := ['1']

/-! ### Helper lemmas -/

theorem prefB_iff (n h : List Char) : prefB n h = true ↔ ∃ t, h = n ++ t := by
  induction n generalizing h with
  | nil => simp [prefB]
  | cons a as ih =>
    cases h with
    | nil => simp [prefB]
    | cons b bs =>
      simp only [prefB, Bool.and_eq_true, beq_iff_eq, ih, List.cons_append, List.cons.injEq]
      constructor
      · rintro ⟨rfl, t, rfl⟩
        exact ⟨t, rfl, rfl⟩
      · rintro ⟨t, rfl, rfl⟩
        exact ⟨rfl, t, rfl⟩

theorem substrB_iff (n h : List Char) : substrB n h = true ↔ ∃ l t, h = l ++ n ++ t := by
  induction h with
  | nil =>
    simp only [substrB, prefB_iff]
    constructor
    · rintro ⟨t, ht⟩
      exact ⟨[], t, by simpa using ht⟩
    · rintro ⟨l, t, ht⟩
      obtain ⟨h1, rfl⟩ := List.append_eq_nil.mp ht.symm
      obtain ⟨rfl, rfl⟩ := List.append_eq_nil.mp h1
      exact ⟨[], rfl⟩
  | cons c t ih =>
    simp only [substrB, Bool.or_eq_true, prefB_iff, ih]
    constructor
    · rintro (⟨s, hs⟩ | ⟨l, s, hs⟩)
      · exact ⟨[], s, by simpa using hs⟩
      · exact ⟨c :: l, s, by simp [hs]⟩
    · rintro ⟨l, s, hs⟩
      cases l with
      | nil => exact Or.inl ⟨s, by simpa using hs⟩
      | cons x xs =>
        simp only [List.cons_append, List.cons.injEq] at hs
        exact Or.inr ⟨xs, s, hs.2⟩

theorem pickColAux_none_iff (cands : List String) (l : List String) (i : Nat) :
    pickColAux cands l i = none ↔ ∀ h ∈ l, headerMatchesB cands h = false := by
  induction l generalizing i with
  | nil => simp [pickColAux]
  | cons a t ih =>
    by_cases hm : headerMatchesB cands a <;> simp [pickColAux, hm, ih]

theorem pickColAux_some_iff (cands : List String) (l : List String) (i k : Nat) :
    pickColAux cands l i = some k ↔
      ∃ pre h post, l = pre ++ h :: post ∧ k = i + pre.length
        ∧ headerMatchesB cands h = true
        ∧ ∀ h' ∈ pre, headerMatchesB cands h' = false := by
  induction l generalizing i with
  | nil => simp [pickColAux]
  | cons a t ih =>
    simp only [pickColAux]
    by_cases hm : headerMatchesB cands a = true
    · rw [if_pos hm]
      constructor
      · intro hk
        injection hk with hk
        exact ⟨[], a, t, rfl, by simp [hk], hm, by simp⟩
      · rintro ⟨pre, h, post, hsplit, hk, hmh, hpre⟩
        cases pre with
        | nil =>
          simp only [List.nil_append, List.cons.injEq] at hsplit
          obtain ⟨rfl, rfl⟩ := hsplit
          simp only [List.length_nil, Nat.add_zero] at hk
          simp [hk]
        | cons p ps =>
          exfalso
          have hp := hpre p (by simp)
          simp only [List.cons_append, List.cons.injEq] at hsplit
          obtain ⟨rfl, -⟩ := hsplit
          simp [hm] at hp
    · rw [if_neg hm]
      rw [ih (i + 1)]
      constructor
      · rintro ⟨pre, h, post, hsplit, hk, hmh, hpre⟩
        refine ⟨a :: pre, h, post, by simp [hsplit], ?_, hmh, ?_⟩
        · simp only [List.length_cons]
          omega
        · intro h' hh'
          rcases List.mem_cons.mp hh' with rfl | hh'
          · simpa using hm
          · exact hpre h' hh'
      · rintro ⟨pre, h, post, hsplit, hk, hmh, hpre⟩
        cases pre with
        | nil =>
          exfalso
          simp only [List.nil_append, List.cons.injEq] at hsplit
          obtain ⟨rfl, -⟩ := hsplit
          exact hm hmh
        | cons p ps =>
          simp only [List.cons_append, List.cons.injEq] at hsplit
          obtain ⟨rfl, hts⟩ := hsplit
          refine ⟨ps, h, post, hts, ?_, hmh, ?_⟩
          · simp only [List.length_cons] at hk
            omega
          · intro h' hh'
            exact hpre h' (by simp [hh'])

theorem classify_foldl_spec (l : List ((String × String) × String)) (a e : List String) :
    l.foldl classifyStep (a, e)
      = (a ++ (l.filter (fun kv => AVAILABLE_SYMBOLS.contains kv.2)).map
            (fun kv => pairLine kv.1.1 kv.1.2 kv.2),
         e ++ (l.filter (fun kv => !(AVAILABLE_SYMBOLS.contains kv.2)
                && pyStartsWith kv.2 ERROR_PREFIX)).map
            (fun kv => pairLine kv.1.1 kv.1.2 kv.2)) := by
  induction l generalizing a e with
  | nil => simp
  | cons kv t ih =>
    rw [List.foldl_cons, List.filter_cons, List.filter_cons]
    by_cases h1 : AVAILABLE_SYMBOLS.contains kv.2 = true
    · have h1m : kv.2 ∈ AVAILABLE_SYMBOLS := by simpa using h1
      rw [show classifyStep (a, e) kv = (a ++ [pairLine kv.1.1 kv.1.2 kv.2], e) from by
        simp [classifyStep, h1m]]
      rw [ih, if_pos h1, if_neg (by simp [h1m])]
      simp
    · have h1m : kv.2 ∉ AVAILABLE_SYMBOLS := by simpa using h1
      by_cases h2 : pyStartsWith kv.2 ERROR_PREFIX = true
      · rw [show classifyStep (a, e) kv = (a, e ++ [pairLine kv.1.1 kv.1.2 kv.2]) from by
          simp [classifyStep, h1m, h2]]
        rw [ih, if_neg h1, if_pos (by simp [h1m, h2])]
        simp
      · rw [show classifyStep (a, e) kv = (a, e) from by simp [classifyStep, h1m, h2]]
        rw [ih, if_neg h1, if_neg (by simp [h1m, h2])]

theorem classifyResults_eq (results : List ((String × String) × String)) :
    classifyResults results
      = ((results.filter (fun kv => AVAILABLE_SYMBOLS.contains kv.2)).map
            (fun kv => pairLine kv.1.1 kv.1.2 kv.2),
         (results.filter (fun kv => !(AVAILABLE_SYMBOLS.contains kv.2)
                && pyStartsWith kv.2 ERROR_PREFIX)).map
            (fun kv => pairLine kv.1.1 kv.1.2 kv.2)) := by
  simpa using classify_foldl_spec results [] []

theorem flatMap_map_length {α β γ : Type} (f : α → β → γ) (l1 : List α) (l2 : List β) :
    (l1.flatMap fun a => l2.map fun b => f a b).length = l1.length * l2.length := by
  induction l1 with
  | nil => simp
  | cons a t ih =>
    rw [List.flatMap_cons, List.length_append, List.length_map, ih, List.length_cons]
    ring

theorem lookup_block_ne {α β γ : Type} [BEq α] [LawfulBEq α] [BEq β]
    (f : α → β → γ) (x a : α) (y : β) (hne : x ≠ a) (l2 : List β)
    (rest : List ((α × β) × γ)) :
    ((l2.map fun b => ((a, b), f a b)) ++ rest).lookup (x, y) = rest.lookup (x, y) := by
  induction l2 with
  | nil => simp
  | cons b t ih =>
    rw [List.map_cons, List.cons_append, List.lookup_cons]
    have hb : ((x, y) == (a, b)) = false := by
      show (x == a && y == b) = false
      rw [beq_eq_false_iff_ne.mpr hne, Bool.false_and]
    simp only [hb]
    exact ih

theorem lookup_block_eq {α β γ : Type} [BEq α] [LawfulBEq α] [BEq β] [LawfulBEq β]
    (f : α → β → γ) (x : α) (y : β) (l2 : List β) (hy : y ∈ l2)
    (rest : List ((α × β) × γ)) :
    ((l2.map fun b => ((x, b), f x b)) ++ rest).lookup (x, y) = some (f x y) := by
  induction l2 with
  | nil => cases hy
  | cons b t ih =>
    rw [List.map_cons, List.cons_append, List.lookup_cons]
    by_cases hyb : y = b
    · subst hyb
      have hb : ((x, y) == (x, y)) = true := by simp
      simp only [hb]
    · have hb : ((x, y) == (x, b)) = false := by
        show (x == x && y == b) = false
        rw [beq_eq_false_iff_ne.mpr hyb, Bool.and_false]
      simp only [hb]
      refine ih ?_
      rcases List.mem_cons.mp hy with rfl | h
      · exact absurd rfl hyb
      · exact h

theorem lookup_cross {α β γ : Type} [BEq α] [LawfulBEq α] [BEq β] [LawfulBEq β]
    (f : α → β → γ) (l1 : List α) (l2 : List β) (x : α) (y : β)
    (hx : x ∈ l1) (hy : y ∈ l2) :
    (l1.flatMap fun a => l2.map fun b => ((a, b), f a b)).lookup (x, y) = some (f x y) := by
  induction l1 with
  | nil => cases hx
  | cons a t ih =>
    rw [List.flatMap_cons]
    by_cases hxa : x = a
    · subst hxa
      exact lookup_block_eq f x y l2 hy _
    · rw [lookup_block_ne f x a y hxa l2 _]
      refine ih ?_
      rcases List.mem_cons.mp hx with rfl | h
      · exact absurd rfl hxa
      · exact h

theorem countP_add_countP_not {α : Type} (p : α → Bool) (l : List α) :
    l.countP p + l.countP (fun a => !(p a)) = l.length := by
  induction l with
  | nil => simp
  | cons a t ih =>
    cases h : p a <;> simp [List.countP_cons, h] <;> omega

theorem runQueries_eq_map (hts : List String) (rows : List Row) (rls dls : List String) :
    runQueries hts rows rls dls
      = (rls ×ˢ dls).map (fun q => (q, runCell hts rows q.1 q.2)) := by
  unfold runQueries
  rw [show (rls ×ˢ dls) = rls.flatMap (fun a => dls.map (Prod.mk a)) from rfl, List.map_flatMap]
  congr 1
  funext a
  rw [List.map_map]
  rfl

theorem splitSlash_append (m d : List Char) :
    m.contains '/' = false → splitSlash (m ++ '/' :: d) = (m, d) := by
  induction m with
  | nil =>
    intro _
    simp [splitSlash]
  | cons c t ih =>
    intro hm
    rw [List.contains_cons, Bool.or_eq_false_iff] at hm
    obtain ⟨h1, h2⟩ := hm
    have hc : (c == '/') = false := by
      rw [beq_eq_false_iff_ne] at h1 ⊢
      exact fun h => h1 h.symm
    simp [splitSlash, hc, ih h2]

theorem contains_slash (m d : List Char) : (m ++ '/' :: d).contains '/' = true := by
  induction m with
  | nil => simp [List.contains_cons]
  | cons c t ih => rw [List.cons_append, List.contains_cons, ih, Bool.or_true]

theorem dayNorm_idem (d : List Char) : dayNorm (dayNorm d) = dayNorm d := by
  by_cases h : (d.dropWhile (· == '0')).isEmpty = true
  · rw [show dayNorm d = ['0'] from by simp [dayNorm, h]]
    simp [dayNorm, List.dropWhile]
  · rw [show dayNorm d = d.dropWhile (· == '0') from by simp [dayNorm, h]]
    simp [dayNorm, List.dropWhile_idempotent, h]

theorem dayNorm_zfill (d : List Char) (hd : ∀ c ∈ d, c.isDigit = true) :
    dayNorm (if d.length == 2 then d else zfill2 d) = dayNorm d := by
  by_cases hl : (d.length == 2) = true
  · rw [if_pos hl]
  · rw [if_neg hl]
    match d, hd with
    | [], _ => rfl
    | [c], hd =>
      have hc : c.isDigit = true := hd c (by simp)
      have hplus : (c == '+') = false := by
        rw [beq_eq_false_iff_ne]
        intro h
        rw [h] at hc
        exact absurd hc (by decide)
      have hminus : (c == '-') = false := by
        rw [beq_eq_false_iff_ne]
        intro h
        rw [h] at hc
        exact absurd hc (by decide)
      rw [show zfill2 [c] = ['0', c] from by simp [zfill2, hplus, hminus]]
      simp [dayNorm, List.dropWhile]
    | c1 :: c2 :: t2, hd =>
      cases t2 with
      | nil => exact absurd rfl hl
      | cons c3 t3 => rfl

/-! ### Claim theorems -/

/-- Claim C4 (confirmed).  Scenario A: with headers `["区分","11/1","11/2"]` and
the row `キャンプ宿泊` carrying data cells `["〇","×"]`, the query
`("キャンプ宿泊","11/1")` resolves the column to index 1, the offset `j = 0`
applies because the data-cell count plus one equals the header count, and the
normalized text of `cells[0]`, namely `Symbol("〇")`, is returned. -/
theorem scenarioA_extracts_maru :
    pick_column_index (scnA_headers.map normalize_text) dA1 = some 1
    ∧ (dataCellsOf scnA_row).length + 1 = scnA_headers.length
    ∧ extract_cell (scnA_headers.map normalize_text) scnA_row 1 = Except.ok symMaru
    ∧ fetch_cell_symbol scnA_headers [scnA_row] rlA dA1 = Except.ok symMaru :=
  ⟨rfl, rfl, rfl, rfl⟩

/-- Claim C2 (counterexample).  On the fallback path of Scenario C the source
indexes the combined `th,td` array directly with the header index, so the
query `("キャンプ日帰り","11/1")` returns the row's own label text — not
`Symbol("△")` as the claim asserts. -/
theorem scenarioC_counterexample :
    fetch_cell_symbol scnC_headers [scnC_row] rlC dA1 = Except.ok rlC ∧ rlC ≠ symTri :=
  ⟨rfl, by decide⟩

/-- Claim C2 (amended).  Scenario C resolves the column to index 0 and the
fallback, indexing the combined array `["キャンプ日帰り","△","×"]` directly
at 0 with no offset, returns `Symbol("キャンプ日帰り")`: the row's own label
text is exactly what is returned when the label occupies slot 0. -/
theorem scenarioC_fallback_returns_label :
    pick_column_index (scnC_headers.map normalize_text) dA1 = some 0
    ∧ (dataCellsOf scnC_row).isEmpty = true
    ∧ scnC_row.cells.map Cell.text = [rlC, symTri, symBatsu]
    ∧ fetch_cell_symbol scnC_headers [scnC_row] rlC dA1 = Except.ok rlC :=
  ⟨rfl, rfl, rfl, rfl⟩

/-- Claim C3 (counterexample).  With four headers against two data cells the
structural invariant is violated (`4 > 2 + 1`), yet extraction does not fail:
the offset correction is skipped, `j = col_index = 1` is in bounds, and the
silently misaligned cell `"×"` is returned (the cell under the `11/1` header
is `"〇"`). -/
theorem invariant_violation_counterexample :
    scnV_headers.length = (dataCellsOf scnA_row).length + 2
    ∧ fetch_cell_symbol scnV_headers [scnA_row] rlA dA1 = Except.ok symBatsu :=
  ⟨rfl, rfl⟩

/-- Claim C3 (amended).  On the primary path (non-empty data-cell list) the
extractor returns the normalized text of `row.cells[j]` exactly when
`0 ≤ j < len(row.cells)`, where `j = col_index - 1` exactly when
`len(row.cells) + 1 = len(headers)` and `j = col_index` otherwise, and fails
with `IndexMismatch(j, len(row.cells))` whenever `j` is out of those bounds;
an invariant violation is therefore detected only when it drives `j` out of
bounds. -/
theorem extract_primary_bounds (headers : List String) (r : Row) (ci : Nat) (j : Int)
    (hne : dataCellsOf r ≠ [])
    (hj : j = if (dataCellsOf r).length + 1 = headers.length then (ci : Int) - 1 else (ci : Int)) :
    (∀ hin : 0 ≤ j ∧ j < ((dataCellsOf r).length : Int),
        extract_cell headers r ci
          = Except.ok (normalize_text ((dataCellsOf r).get ⟨j.toNat, by omega⟩).text))
    ∧ (¬(0 ≤ j ∧ j < ((dataCellsOf r).length : Int)) →
        extract_cell headers r ci
          = Except.error (ExtractErr.indexMismatch j (dataCellsOf r).length)) := by
  have h1 : (dataCellsOf r).isEmpty = false := List.isEmpty_eq_false.mpr hne
  subst hj
  constructor
  · intro hin
    simp only [extract_cell]
    rw [if_neg (by simp [h1]), dif_pos hin]
  · intro hout
    simp only [extract_cell]
    rw [if_neg (by simp [h1]), dif_neg hout]

/-- Claim C3 (witness).  The bounds characterization applied to Scenario A's
row at column index 1 (offset `j = 0`, in bounds). -/
theorem extract_primary_bounds_witness :
    extract_cell (scnA_headers.map normalize_text) scnA_row 1
      = Except.ok (normalize_text ((dataCellsOf scnA_row).get
          ⟨(0 : Int).toNat, by decide⟩).text) := by
  have h := (extract_primary_bounds (scnA_headers.map normalize_text) scnA_row 1
    (if (dataCellsOf scnA_row).length + 1 = (scnA_headers.map normalize_text).length
      then (1 : Int) - 1 else (1 : Int))
    (by decide) rfl).1 (by decide)
  simpa using h

/-- Claim C6 (confirmed).  When the resolved row has no `td` data cells, the
fallback indexes the combined `th,td` cell sequence (leading-label slot plus
data cells) directly at `col_index`: it returns that cell's normalized text
exactly when `col_index` is within bounds and fails with `CellNotFound`
otherwise. -/
theorem fallback_direct_index (headers : List String) (r : Row) (ci : Nat)
    (hempty : dataCellsOf r = []) :
    extract_cell headers r ci =
      if h : ci < r.cells.length then
        Except.ok (normalize_text (r.cells.get ⟨ci, h⟩).text)
      else Except.error ExtractErr.cellNotFound := by
  simp only [extract_cell, hempty, List.isEmpty_nil, if_true]

/-- Claim C6 (witness).  The fallback characterization applied to Scenario C's
row at column index 1 (in bounds: returns `"△"`) — its out-of-bounds arm is
exercised at index 5 (`CellNotFound`). -/
theorem fallback_direct_index_witness :
    extract_cell (scnC_headers.map normalize_text) scnC_row 1 = Except.ok symTri
    ∧ extract_cell (scnC_headers.map normalize_text) scnC_row 5
        = Except.error ExtractErr.cellNotFound := by
  constructor
  · rw [fallback_direct_index (scnC_headers.map normalize_text) scnC_row 1 (by decide)]
    rfl
  · rw [fallback_direct_index (scnC_headers.map normalize_text) scnC_row 5 (by decide)]
    rfl

/-- Claim C10 (confirmed).  For every row with a non-empty data-cell list
satisfying `len(cells) + 1 = len(headers)`, extraction at column index 0 (the
leading label column) always fails with `IndexMismatch`: the computed offset
is `j = -1`, so the label column's text can never be returned by the primary
path. -/
theorem label_column_index_mismatch (headers : List String) (r : Row)
    (hne : dataCellsOf r ≠ []) (hlen : (dataCellsOf r).length + 1 = headers.length) :
    extract_cell headers r 0
      = Except.error (ExtractErr.indexMismatch (-1) (dataCellsOf r).length) := by
  have h1 : (dataCellsOf r).isEmpty = false := List.isEmpty_eq_false.mpr hne
  simp only [extract_cell]
  rw [if_neg (by simp [h1])]
  simp only [hlen, eq_self_iff_true, ite_true]
  rw [dif_neg (by rintro ⟨hc, -⟩; omega)]
  rfl

/-- Claim C10 (witness).  Scenario A's well-formed row at column index 0. -/
theorem label_column_index_mismatch_witness :
    extract_cell (scnA_headers.map normalize_text) scnA_row 0
      = Except.error (ExtractErr.indexMismatch (-1) (dataCellsOf scnA_row).length) :=
  label_column_index_mismatch (scnA_headers.map normalize_text) scnA_row
    (by decide) (by decide)

/-- Claim C5 (confirmed).  Column resolution returns the index of the first
(lowest-index) header whose whitespace-normalized text contains some date
candidate as a substring, and returns `None` (never an exception) when no
header matches — in particular on an empty header list; row resolution
analogously selects the first row whose normalized leading label contains the
row label as a substring, with the same left-to-right tie-break. -/
theorem resolver_first_match (headers : List String) (d : String)
    (rows : List Row) (lbl : String) :
    (pick_column_index ([] : List String) d = none)
    ∧ (∀ h, headerMatchesB (_date_candidates d) h = true ↔
        ∃ c ∈ _date_candidates d, ContainsSub (normalize_text h).data c.data)
    ∧ (pick_column_index headers d = none ↔
        ∀ h ∈ headers, headerMatchesB (_date_candidates d) h = false)
    ∧ (∀ k, pick_column_index headers d = some k ↔
        ∃ pre h post, headers = pre ++ h :: post ∧ k = pre.length
          ∧ headerMatchesB (_date_candidates d) h = true
          ∧ ∀ h' ∈ pre, headerMatchesB (_date_candidates d) h' = false)
    ∧ (∀ r, rowMatchesB lbl r = true ↔
        ∃ c, firstCell r = some c ∧ ContainsSub (normalize_text c.text).data lbl.data)
    ∧ (∀ r, findRow rows lbl = some r ↔
        ∃ pre post, rows = pre ++ r :: post ∧ rowMatchesB lbl r = true
          ∧ ∀ r' ∈ pre, rowMatchesB lbl r' = false) := by
  refine ⟨rfl, ?_, ?_, ?_, ?_, ?_⟩
  · intro h
    simp only [headerMatchesB, List.any_eq_true, substrB_iff, ContainsSub]
  · simp only [pick_column_index]
    exact pickColAux_none_iff _ headers 0
  · intro k
    simp only [pick_column_index]
    rw [pickColAux_some_iff]
    constructor
    · rintro ⟨pre, h, post, h1, h2, h3, h4⟩
      exact ⟨pre, h, post, h1, by omega, h3, h4⟩
    · rintro ⟨pre, h, post, h1, h2, h3, h4⟩
      exact ⟨pre, h, post, h1, by omega, h3, h4⟩
  · intro r
    simp only [rowMatchesB]
    cases hfc : firstCell r with
    | none => simp
    | some c => simp [substrB_iff, ContainsSub]
  · intro r
    simp only [findRow]
    rw [List.find?_eq_some]
    constructor
    · rintro ⟨hp, as, bs, hsplit, hpre⟩
      exact ⟨as, bs, hsplit, hp, fun r' hr' => by simpa using hpre r' hr'⟩
    · rintro ⟨pre, post, hsplit, hp, hpre⟩
      exact ⟨hp, pre, post, hsplit, fun r' hr' => by simp [hpre r' hr']⟩

/-- Claim C5 (witness).  The empty-header-list arm at a concrete date label:
resolution yields `None` rather than raising. -/
theorem resolver_first_match_witness :
    pick_column_index ([] : List String) dA1 = none :=
  (resolver_first_match [] dA1 [] rlA).1

/-- Claim C7 (counterexample).  `_date_candidates` strips the label before
branching, so for the slash-free label `" A "` the result is the singleton of
the stripped label `"A"` — not the singleton of the label itself as the claim
states. -/
theorem date_candidates_counterexample :
    spaceLbl.data.contains '/' = false
    ∧ _date_candidates spaceLbl = [stripA]
    ∧ stripA ≠ spaceLbl :=
  ⟨by decide, by decide, by decide⟩

/-- Claim C7 (amended).  On the whitespace-stripped label: if the stripped form
splits at its first `'/'` into `month` and `day`, the candidates are exactly
`month/day`-without-leading-zeros (`"0"` when empty) and `month/day`
zero-padded to two characters unless already two; a label whose stripped form
has no `'/'` yields the singleton of its stripped form; the result is always
non-empty; and for numeric days both variants reduce to the same normalized
day. -/
theorem date_candidates_spec (label : String) (m d : List Char)
    (hm : m.contains '/' = false)
    (hsplit : pyStrip label.data = m ++ '/' :: d) :
    _date_candidates label
      = [String.mk (m ++ '/' :: dayNorm d),
         String.mk (m ++ '/' :: (if d.length == 2 then d else zfill2 d))]
    ∧ (∀ lbl2 : String, (pyStrip lbl2.data).contains '/' = false →
        _date_candidates lbl2 = [String.mk (pyStrip lbl2.data)])
    ∧ (∀ lbl2 : String, _date_candidates lbl2 ≠ [])
    ∧ ((∀ c ∈ d, c.isDigit = true) →
        dayNorm (dayNorm d) = dayNorm d
        ∧ dayNorm (if d.length == 2 then d else zfill2 d) = dayNorm d) := by
  refine ⟨?_, ?_, ?_, ?_⟩
  · simp only [_date_candidates, hsplit, contains_slash, splitSlash_append m d hm,
      dayNorm, if_true]
  · intro lbl2 h2
    have h2m : '/' ∉ pyStrip lbl2.data := by simpa using h2
    simp [_date_candidates, h2m]
  · intro lbl2
    by_cases h2 : '/' ∈ pyStrip lbl2.data <;> simp [_date_candidates, h2]
  · intro hd
    exact ⟨dayNorm_idem d, dayNorm_zfill d hd⟩

/-- Claim C7 (witness).  The amended characterization at the label `"11/1"`
(month `"11"`, day `"1"`): both candidates and their common normalized day. -/
theorem date_candidates_spec_witness :
    _date_candidates dA1
      = [String.mk (m11 ++ '/' :: dayNorm day1),
         String.mk (m11 ++ '/' :: (if day1.length == 2 then day1 else zfill2 day1))]
    ∧ dayNorm (if day1.length == 2 then day1 else zfill2 day1) = dayNorm day1 := by
  have h := date_candidates_spec dA1 m11 day1 (by decide) (by decide)
  exact ⟨h.1, (h.2.2.2 (by decide)).2⟩

/-- Claim C8 (amended).  When every recorded result is outside the availability
set *and* does not start with `"ERROR"` (so both the available and errored
groups are empty) and the notify-on-empty flag is false, rendering yields the
short no-availability outcome with no broadcast message — not the
multi-section report. -/
theorem render_no_availability (results : List ((String × String) × String))
    (dls : List String)
    (h : ∀ kv ∈ results, AVAILABLE_SYMBOLS.contains kv.2 = false
        ∧ pyStartsWith kv.2 ERROR_PREFIX = false) :
    renderReport results dls false = Report.noAvailability none := by
  have hc := classifyResults_eq results
  have ha : results.filter (fun kv => AVAILABLE_SYMBOLS.contains kv.2) = [] := by
    rw [List.filter_eq_nil_iff]
    intro kv hkv
    simpa using (h kv hkv).1
  have he : results.filter (fun kv => !(AVAILABLE_SYMBOLS.contains kv.2)
      && pyStartsWith kv.2 ERROR_PREFIX) = [] := by
    rw [List.filter_eq_nil_iff]
    intro kv hkv
    simp [(h kv hkv).2]
  simp only [renderReport, hc, ha, he, List.map_nil, List.nil_append]
  simp

/-- Claim C8 (witness).  Scenario D: both pairs resolved to the unavailable
symbol `"×"`, notify-on-empty false — the short no-availability outcome. -/
theorem render_no_availability_witness :
    renderReport scnD_results [dA1] false = Report.noAvailability none :=
  render_no_availability scnD_results [dA1] (by decide)

/-- Claim C8 (counterexample).  A genuinely extracted `Symbol` whose text
starts with `"ERROR"` lies outside the availability set, yet the errored
group is non-empty and rendering produces the multi-section report — refuting
the claim's short-summary conclusion under its stated hypothesis. -/
theorem render_error_symbol_counterexample :
    fetch_cell_symbol scnE_headers [scnE_row] rlE dA1 = Except.ok symE
    ∧ AVAILABLE_SYMBOLS.contains symE = false
    ∧ Report.isMulti (renderReport (runQueries scnE_headers [scnE_row] [rlE] [dA1])
        [dA1] false) = true :=
  ⟨rfl, by decide, by decide⟩

/-- Claim C9 (confirmed).  The aggregator places a result in the errors section
exactly when its value is outside the availability set and starts with
`"ERROR"`; failures are stored as plain `"ERROR: ..."` strings, so a
successfully extracted cell whose text begins with `"ERROR"` lands in the
errors section (and not in the available section). -/
theorem errors_classification (results : List ((String × String) × String)) :
    ((classifyResults results).2
      = (results.filter (fun kv => !(AVAILABLE_SYMBOLS.contains kv.2)
            && pyStartsWith kv.2 ERROR_PREFIX)).map
          (fun kv => pairLine kv.1.1 kv.1.2 kv.2))
    ∧ fetch_cell_symbol scnE_headers [scnE_row] rlE dA1 = Except.ok symE
    ∧ pyStartsWith symE ERROR_PREFIX = true
    ∧ AVAILABLE_SYMBOLS.contains symE = false
    ∧ (classifyResults (runQueries scnE_headers [scnE_row] [rlE] [dA1])).2
        = [pairLine rlE dA1 symE]
    ∧ (classifyResults (runQueries scnE_headers [scnE_row] [rlE] [dA1])).1 = [] := by
  refine ⟨?_, rfl, by decide, by decide, by decide, by decide⟩
  rw [classifyResults_eq]

theorem countP_beq_eq_one {α : Type} [BEq α] [LawfulBEq α] {l : List α} {a : α}
    (hnd : l.Nodup) (ha : a ∈ l) : l.countP (fun x => x == a) = 1 := by
  induction l with
  | nil => cases ha
  | cons b t ih =>
    rw [List.countP_cons]
    rcases List.mem_cons.mp ha with rfl | hat
    · have hbt : a ∉ t := (List.nodup_cons.mp hnd).1
      have hz : t.countP (fun x => x == a) = 0 := by
        rw [List.countP_eq_zero]
        intro x hx
        simp only [beq_iff_eq]
        exact fun hxb => hbt (hxb ▸ hx)
      simp [hz]
    · have hne : (b == a) = false := by
        rw [beq_eq_false_iff_ne]
        rintro rfl
        exact (List.nodup_cons.mp hnd).1 hat
      rw [hne]
      simpa using ih (List.nodup_cons.mp hnd).2 hat

/-- Claim C1 (confirmed).  For every snapshot and batch of unique
`(row label, date label)` queries, the orchestrator's loop records exactly
one entry per query (the mapping has `N` entries and each key's value is a
total function of that key alone, so one query's failure leaves every other
query's result unchanged, and no exception escapes — every outcome is either
a symbol or a recorded `"ERROR: ..."` string); when exactly one query's date
label is unresolvable and every other query extracts successfully, the run
holds exactly one failure result and `N - 1` symbol results. -/
theorem orchestrator_failure_isolation
    (hts : List String) (rows : List Row) (rls dls : List String)
    (hr : rls.Nodup) (hd : dls.Nodup)
    (r0 d0 : String) (hr0 : r0 ∈ rls) (hd0 : d0 ∈ dls)
    (hcol : pick_column_index (hts.map normalize_text) d0 = none)
    (hok : ∀ r ∈ rls, ∀ d ∈ dls, ¬(r = r0 ∧ d = d0) →
      ∃ s, fetch_cell_symbol hts rows r d = Except.ok s) :
    (runQueries hts rows rls dls).length = rls.length * dls.length
    ∧ (∀ r ∈ rls, ∀ d ∈ dls,
        (runQueries hts rows rls dls).lookup (r, d) = some (runCell hts rows r d))
    ∧ (runQueries hts rows rls dls).countP
        (fun kv => !(isOkE (fetch_cell_symbol hts rows kv.1.1 kv.1.2))) = 1
    ∧ (runQueries hts rows rls dls).countP
        (fun kv => isOkE (fetch_cell_symbol hts rows kv.1.1 kv.1.2))
        = rls.length * dls.length - 1 := by
  have hlen : (runQueries hts rows rls dls).length = rls.length * dls.length := by
    unfold runQueries
    exact flatMap_map_length (fun row d => ((row, d), runCell hts rows row d)) rls dls
  have herr : fetch_cell_symbol hts rows r0 d0
      = Except.error (ExtractErr.columnNotFound d0) := by
    simp [fetch_cell_symbol, hcol]
  have hlook : ∀ r ∈ rls, ∀ d ∈ dls,
      (runQueries hts rows rls dls).lookup (r, d) = some (runCell hts rows r d) := by
    intro r hrm d hdm
    unfold runQueries
    exact lookup_cross (fun a b => runCell hts rows a b) rls dls r d hrm hdm
  have hmap := runQueries_eq_map hts rows rls dls
  have hprod_nodup : (rls ×ˢ dls).Nodup := hr.product hd
  have hmem : (r0, d0) ∈ rls ×ˢ dls := List.mem_product.mpr ⟨hr0, hd0⟩
  have hcnt_err : (runQueries hts rows rls dls).countP
      (fun kv => !(isOkE (fetch_cell_symbol hts rows kv.1.1 kv.1.2))) = 1 := by
    rw [hmap, List.countP_map]
    have hcg : List.countP
        ((fun kv => !(isOkE (fetch_cell_symbol hts rows kv.1.1 kv.1.2)))
          ∘ (fun q => (q, runCell hts rows q.1 q.2))) (rls ×ˢ dls)
        = List.countP (fun q => q == (r0, d0)) (rls ×ˢ dls) := by
      apply List.countP_congr
      intro q hq
      obtain ⟨q1, q2⟩ := q
      obtain ⟨hq1, hq2⟩ := List.mem_product.mp hq
      by_cases h0 : (q1, q2) = (r0, d0)
      · obtain ⟨rfl, rfl⟩ := Prod.mk.injEq .. ▸ h0
        simp [Function.comp, herr, isOkE]
      · obtain ⟨s, hs⟩ := hok q1 hq1 q2 hq2 (by simpa [Prod.mk.injEq] using h0)
        simp [Function.comp, hs, isOkE, h0]
    rw [hcg]
    exact countP_beq_eq_one hprod_nodup hmem
  have hcnt_ok : (runQueries hts rows rls dls).countP
      (fun kv => isOkE (fetch_cell_symbol hts rows kv.1.1 kv.1.2))
      = rls.length * dls.length - 1 := by
    have htot : (runQueries hts rows rls dls).countP
        (fun kv => isOkE (fetch_cell_symbol hts rows kv.1.1 kv.1.2))
        + (runQueries hts rows rls dls).countP
        (fun kv => !(isOkE (fetch_cell_symbol hts rows kv.1.1 kv.1.2)))
        = (runQueries hts rows rls dls).length := by
      simpa using countP_add_countP_not
        (fun kv => isOkE (fetch_cell_symbol hts rows kv.1.1 kv.1.2))
        (runQueries hts rows rls dls)
    rw [hlen, hcnt_err] at htot
    omega
  exact ⟨hlen, hlook, hcnt_err, hcnt_ok⟩

/-- Claim C1 (witness).  Scenario A's table queried with one row label and two
date labels, the second of which (`"11/9"`) matches no header: two entries,
one failure, one symbol, and the successful pair's entry is looked up
unchanged. -/
theorem orchestrator_failure_isolation_witness :
    (runQueries scnA_headers [scnA_row] [rlA] [dA1, dA9]).length = 2
    ∧ (runQueries scnA_headers [scnA_row] [rlA] [dA1, dA9]).lookup (rlA, dA1)
        = some (runCell scnA_headers [scnA_row] rlA dA1)
    ∧ (runQueries scnA_headers [scnA_row] [rlA] [dA1, dA9]).countP
        (fun kv => !(isOkE (fetch_cell_symbol scnA_headers [scnA_row] kv.1.1 kv.1.2))) = 1
    ∧ (runQueries scnA_headers [scnA_row] [rlA] [dA1, dA9]).countP
        (fun kv => isOkE (fetch_cell_symbol scnA_headers [scnA_row] kv.1.1 kv.1.2)) = 1 := by
  have h := orchestrator_failure_isolation scnA_headers [scnA_row] [rlA] [dA1, dA9]
    (by decide) (by decide) rlA dA9 (by decide) (by decide) (by decide)
    (by
      intro r hrm d hdm hne
      rw [List.mem_singleton] at hrm
      subst hrm
      rcases List.mem_cons.mp hdm with rfl | hdm2
      · exact ⟨symMaru, rfl⟩
      · rw [List.mem_singleton] at hdm2
        subst hdm2
        exact absurd ⟨rfl, rfl⟩ hne)
  refine ⟨by simpa using h.1, h.2.1 rlA (by decide) dA1 (by decide), h.2.2.1,
    by simpa using h.2.2.2⟩
